import Mathlib

/-!
Verification of the phpx tool-runner core: identifier parsing, version
selection, the artifact cache (lookup, TTL sweep, removal), the isolated
composer installer, signature verification, and exit-status propagation.
Definitions are shallow embeddings of the Rust source in `src/`.
-/

namespace Phpx

/-- Split a list of characters on a separator character, mirroring Rust's
`str::split(char)`: `"" ↦ [""]`, `"a@" ↦ ["a", ""]`. -/
def splitCharList (c : Char) : List Char → List (List Char)
  | [] => [[]]
  | a :: rest =>
    if a = c then [] :: splitCharList c rest
    else
      match splitCharList c rest with
      | [] => [[a]]
      | h :: t => (a :: h) :: t

/-- Split a string on a separator character, as Rust's `str::split(char)`. -/
def splitChar (c : Char) (s : String) : List String :=
  (splitCharList c s.data).map (fun l => String.mk l)

/-- Replace every occurrence of a character, as Rust's `str::replace(c, d)`
with single-character arguments. -/
def replaceChar (c d : Char) (s : String) : String :=
  String.mk (s.data.map (fun a => if a = c then d else a))

/-- Parse a nonempty all-digit string as a natural number. -/
def parseNat? (s : String) : Option Nat :=
  if s.data ≠ [] ∧ s.data.all (fun c => c.isDigit) then
    some (s.data.foldl (fun n c => 10 * n + (c.toNat - '0'.toNat)) 0)
  else none

/-- Model of the external `semver` crate's `Version`, restricted to bare
`major.minor.patch` triples (pre-release and build metadata are not
modelled; such strings simply fail to parse here, and the resolver drops
unparseable version strings via `filter_map`). -/
structure SemVer where
  major : Nat
  minor : Nat
  patch : Nat
deriving DecidableEq, Repr

/-- Model of `semver::Version::parse` on plain `X.Y.Z` strings. -/
def parseSemVer (s : String) : Option SemVer :=
  match splitChar '.' s with
  | [a, b, c] =>
    match parseNat? a, parseNat? b, parseNat? c with
    | some x, some y, some z => some ⟨x, y, z⟩
    | _, _, _ => none
  | _ => none

/-- The `semver` crate's total order on versions (lexicographic on
major, minor, patch for plain versions). -/
def svLe (a b : SemVer) : Bool :=
  decide (a.major < b.major ∨ (a.major = b.major ∧
    (a.minor < b.minor ∨ (a.minor = b.minor ∧ a.patch ≤ b.patch))))

/-- The relation form of `svLe`, for use with `List.insertionSort`. -/
def svLeR (a b : SemVer) : Prop := svLe a b = true

instance : DecidableRel svLeR := fun a b => by unfold svLeR; infer_instance

theorem svLeR_iff {a b : SemVer} : svLeR a b ↔
    (a.major < b.major ∨ (a.major = b.major ∧
      (a.minor < b.minor ∨ (a.minor = b.minor ∧ a.patch ≤ b.patch)))) := by
  unfold svLeR svLe
  exact decide_eq_true_iff

instance : IsTotal SemVer svLeR :=
  ⟨fun a b => by rw [svLeR_iff, svLeR_iff]; omega⟩

instance : IsTrans SemVer svLeR :=
  ⟨fun a b c hab hbc => by
    rw [svLeR_iff] at hab hbc ⊢; omega⟩

theorem svLeR_antisymm {a b : SemVer} (h1 : svLeR a b) (h2 : svLeR b a) : a = b := by
  rw [svLeR_iff] at h1 h2
  cases a; cases b
  simp_all only [SemVer.mk.injEq]
  omega

/-- Rendering of a version back to a string, as `Version::to_string()`. -/
def semverToString (v : SemVer) : String :=
  toString v.major ++ "." ++ toString v.minor ++ "." ++ toString v.patch

/-- Model of the external `semver` crate's `VersionReq`, abstracted by its
matching semantics: a decidable predicate on versions.  `VersionReq::parse`
is taken as a parameter wherever the source calls it, since the crate is an
external dependency. -/
def VersionReq : Type := SemVer → Bool

/-- The caret requirement `^1.0` of the `semver` crate: `>=1.0.0, <2.0.0`,
which for plain versions is exactly `major = 1`. -/
def caretOneZero : VersionReq := fun v => decide (v.major = 1)

/-- Structure `ToolIdentifier` from `src/resolver.rs`. -/
structure ToolIdentifier where
  name : String
  version_constraint : Option VersionReq
  version : Option String

/-- The error enum from `src/error.rs` (constructors relevant to the
verified components; message payloads kept as strings). -/
inductive Error where
  | io (msg : String)
  | config (msg : String)
  | toolNotFound (name : String)
  | versionConstraint (msg : String)
  | security (msg : String)
  | cache (msg : String)
  | execution (msg : String)
  | executionFailed (code : Int)
  | invalidToolIdentifier (msg : String)
  | composerNotFound
  | composerInstallFailed (msg : String)
deriving Repr, DecidableEq

/-- Model of `ToolResolver::parse_identifier` from `src/resolver.rs` lines 77–115.
`parseReq` stands for `semver::VersionReq::parse` (external crate),
returning `none` exactly when that parse fails. -/
def parse_identifier (parseReq : String → Option VersionReq) (identifier : String) :
    Except Error ToolIdentifier :=
  let parts := splitChar '@' identifier
  match parts with
  | [name] => .ok ⟨name, none, none⟩
  | [name, version_str] =>
    if version_str = "latest" then
      .ok ⟨name, none, some "latest"⟩
    else
      match parseReq version_str with
      | some constraint => .ok ⟨name, some constraint, none⟩
      | none => .ok ⟨name, none, some version_str⟩
  | _ => .error (.invalidToolIdentifier "Invalid tool identifier format")

/-- Model of `ToolResolver::find_matching_version` from `src/resolver.rs` lines
462–503.  The `HashMap` of Packagist versions is modelled by its key list;
`candidate_versions.sort(); candidate_versions.reverse()` is modelled by
insertion sort followed by `reverse`, which yields the same descending
order. -/
def find_matching_version (versions : List String) (identifier : ToolIdentifier) :
    Except Error String :=
  let candidate_versions :=
    ((versions.filterMap parseSemVer).insertionSort svLeR).reverse
  match identifier.version_constraint with
  | some constraint =>
    match candidate_versions.find? (fun v => constraint v) with
    | some v => .ok (semverToString v)
    | none => .error (.versionConstraint "No matching version found")
  | none =>
    if identifier.version = some "latest" then
      match candidate_versions.head? with
      | some latest => .ok (semverToString latest)
      | none => .error (.versionConstraint "No matching version found")
    else
      match identifier.version with
      | some version_str =>
        match parseSemVer version_str with
        | some version =>
          if candidate_versions.contains version then
            .ok (semverToString version)
          else .error (.versionConstraint "No matching version found")
        | none =>
          if versions.contains version_str then .ok version_str
          else .error (.versionConstraint "No matching version found")
      | none =>
        match candidate_versions.head? with
        | some latest => .ok (semverToString latest)
        | none => .error (.versionConstraint "No matching version found")

/-! ### Artifact cache (`src/cache.rs`)

The `HashMap<String, CacheEntry>` is modelled as an association list whose
key list is `Nodup` (the `HashMap` invariant; theorems that need it take it
as a hypothesis).  The filesystem is modelled as the list of existing
paths, and paths as plain strings.  `save_cache` (which serializes the map
to `cache.json`) is modelled by copying `entries` into the `disk` field. -/

/-- Structure `CacheEntry` from `src/cache.rs`. -/
structure CacheEntry where
  tool_name : String
  version : String
  file_path : String
  download_url : String
  file_hash : Option String
  created_at : Nat
  last_accessed : Nat
  size : Nat
  bin_name : Option String
  is_composer : Bool
deriving DecidableEq, Repr

/-- The cache manager's observable state: the in-memory map and the
persisted on-disk document. -/
structure CMState where
  entries : List (String × CacheEntry)
  disk : List (String × CacheEntry)
deriving DecidableEq, Repr

/-- Model of `CacheManager::build_key`. -/
def build_key (tool_name version : String) : String := tool_name ++ ":" ++ version

/-- Model of `HashMap::get` on the association-list model. -/
def lookupKey (k : String) (l : List (String × CacheEntry)) : Option CacheEntry :=
  (l.find? (fun p => decide (p.1 = k))).map (fun p => p.2)

/-- Model of `HashMap::insert`: overwrite the entry at the key, or append it. -/
def insertKey (k : String) (e : CacheEntry) (l : List (String × CacheEntry)) :
    List (String × CacheEntry) :=
  if l.any (fun p => decide (p.1 = k)) then
    l.map (fun p => if p.1 = k then (k, e) else p)
  else l ++ [(k, e)]

/-- Model of `HashMap::remove`, dropping the pair at the key. -/
def eraseKey (k : String) (l : List (String × CacheEntry)) :
    List (String × CacheEntry) :=
  l.filter (fun p => decide (p.1 ≠ k))

/-- Model of `CacheManager::get_entry` (`src/cache.rs` lines 56–67): on a hit the
entry's `last_accessed` is set to `now` in the in-memory map and the
updated entry is returned; the `disk` document is NOT rewritten (the
function performs no `save_cache` call). -/
def get_entry (now : Nat) (tool_name version : String) (st : CMState) :
    Option CacheEntry × CMState :=
  let key := build_key tool_name version
  match lookupKey key st.entries with
  | some entry =>
    let entry' := { entry with last_accessed := now }
    (some entry', { st with entries := insertKey key entry' st.entries })
  | none => (none, st)

/-- Model of `CacheManager::add_composer_entry` (`src/cache.rs` lines 91–118):
insert a directory-backed entry and persist (`save_cache`). -/
def add_composer_entry (now : Nat) (tool_name version dir_path bin_name : String)
    (st : CMState) : CMState :=
  let entry : CacheEntry :=
    { tool_name := tool_name, version := version, file_path := dir_path,
      download_url := "", file_hash := none, created_at := now,
      last_accessed := now, size := 0, bin_name := some bin_name,
      is_composer := true }
  let entries' := insertKey (build_key tool_name version) entry st.entries
  { entries := entries', disk := entries' }

/-- Events observable during a removal loop, in order of occurrence.  A
deletion event carries the key of the entry whose `file_path` is being
deleted, and distinguishes `remove_dir_all` (directory-backed entries)
from `remove_file`. -/
inductive CacheEvent where
  | mapRemove (key : String)
  | fsDeleteDir (key path : String)
  | fsDeleteFile (key path : String)
  | save
deriving DecidableEq, Repr

/-- The key of the entry a deletion event belongs to, `none` for
non-deletion events. -/
def deleteEventKey : CacheEvent → Option String
  | .fsDeleteDir k _ => some k
  | .fsDeleteFile k _ => some k
  | _ => none

/-- Deletion of an entry's backing storage, guarded by
`entry.file_path.exists()` as in the source. -/
def deleteBacking (key : String) (entry : CacheEntry) (fs : List String) :
    List String × List CacheEvent :=
  if entry.file_path ∈ fs then
    (fs.filter (fun p => decide (p ≠ entry.file_path)),
     [if entry.is_composer then CacheEvent.fsDeleteDir key entry.file_path
      else CacheEvent.fsDeleteFile key entry.file_path])
  else (fs, [])

/-- The removal loop shared by `remove_entry` and `cleanup_old_entries`:
for each key, `entries.remove(&key)` first, then best-effort deletion of
the removed entry's backing storage.  (In the pure filesystem model
deletions always succeed, so the `?`-propagation of `remove_entry` and the
`let _ =` of `cleanup_old_entries` coincide.) -/
def removeKeysLoop : List String → List (String × CacheEntry) → List String →
    List (String × CacheEntry) × List String × List CacheEvent
  | [], entries, fs => (entries, fs, [])
  | key :: ks, entries, fs =>
    match lookupKey key entries with
    | some entry =>
      let rest := removeKeysLoop ks (eraseKey key entries) (deleteBacking key entry fs).1
      (rest.1, rest.2.1,
        (CacheEvent.mapRemove key :: (deleteBacking key entry fs).2) ++ rest.2.2)
    | none => removeKeysLoop ks entries fs

/-- Unsigned 64-bit subtraction with the release-profile wrapping semantics, for
`a, b < 2^64`. -/
def wrapSub (a b : Nat) : Nat := (2 ^ 64 + a - b) % 2 ^ 64

/-- The TTL-expiry test `now - entry.last_accessed > ttl` of
`cleanup_old_entries`, on a map pair. -/
def expiredB (now ttl : Nat) (p : String × CacheEntry) : Bool :=
  decide (ttl < wrapSub now p.2.last_accessed)

/-- The backing paths of the entries whose key is in `keys`. -/
def removedPathsOf (keys : List String) (es : List (String × CacheEntry)) : List String :=
  (es.filter (fun p => decide (p.1 ∈ keys))).map (fun p => p.2.file_path)

/-- Model of `CacheManager::cleanup_old_entries` (`src/cache.rs` lines 200–227):
collect the keys of entries with `now - last_accessed > ttl` (wrapping
`u64` arithmetic), remove each from the map deleting its backing storage
best-effort, then `save_cache`. -/
def cleanup_old_entries (now ttl : Nat) (st : CMState) (fs : List String) :
    CMState × List String :=
  let keys_to_remove := (st.entries.filter (expiredB now ttl)).map (fun p => p.1)
  let out := removeKeysLoop keys_to_remove st.entries fs
  ({ entries := out.1, disk := out.1 }, out.2.1)

/-- Whether `pre` is a prefix of `s`, as Rust's `str::starts_with`. -/
def charsStartWith : List Char → List Char → Bool
  | [], _ => true
  | _ :: _, [] => false
  | a :: as, b :: bs => a = b && charsStartWith as bs

/-- String version of `charsStartWith`. -/
def strStartsWith (pre s : String) : Bool := charsStartWith pre.data s.data

/-- Model of `CacheManager::remove_entry` (`src/cache.rs` lines 156–194): remove a
single `name:version` key, or every key prefixed `name:`; for each removed
map entry delete its backing storage, then `save_cache`.  The returned
trace records the order of the map drop, the deletions, and the save. -/
def remove_entry (tool_name : String) (version : Option String) (st : CMState)
    (fs : List String) : CMState × List String × List CacheEvent :=
  let keys :=
    match version with
    | some ver => [build_key tool_name ver]
    | none => (st.entries.map (fun p => p.1)).filter
        (fun k => strStartsWith (tool_name ++ ":") k)
  let out := removeKeysLoop keys st.entries fs
  ({ entries := out.1, disk := out.1 }, out.2.1, out.2.2 ++ [CacheEvent.save])

/-! ### Orchestrator cache lookup (`src/runner.rs`) -/

/-- The `user_wants_specific_version` test from `Runner::run_tool`
(`src/runner.rs` lines 96–100): a version constraint is present, or an
exact version other than the literal `"latest"` was requested. -/
def user_wants_specific_version (identifier : ToolIdentifier) : Bool :=
  identifier.version_constraint.isSome ||
    (match identifier.version with
     | some v => decide (v ≠ "latest")
     | none => false)

/-- The cache-lookup phase of `Runner::run_tool` (`src/runner.rs` lines
88–126): unless `no_cache`, look up the target version's entry (mutating
`last_accessed`); refuse an entry recorded under the synthetic version
`"latest"` whenever a specific version or range was requested; otherwise
return it as a hit if verification passes.  `version?` is the result of
`get_tool_version` and `verify` abstracts `verify_cached_tool` (which
inspects the real filesystem and hashes).  Returns the entry to execute on
a hit, or `none` for "continue to resolution". -/
def runToolCachePhase (no_cache : Bool) (identifier : ToolIdentifier)
    (version? : Option String) (now : Nat) (verify : CacheEntry → Bool)
    (st : CMState) : Option CacheEntry × CMState :=
  if no_cache then (none, st)
  else
    match version? with
    | none => (none, st)
    | some version =>
      match get_entry now identifier.name version st with
      | (some cache_entry, st') =>
        if user_wants_specific_version identifier && cache_entry.version = "latest" then
          (none, st')
        else if verify cache_entry then (some cache_entry, st')
        else (none, st')
      | (none, st') => (none, st')

/-! ### Process executor and exit propagation (`src/executor.rs`, `src/main.rs`) -/

/-- A child process's exit status: `some c` means it exited with code `c`;
`none` means it terminated without an exit code (killed by a signal).
`ExitStatus::success()` holds exactly for code 0. -/
def statusResult (status : Option Int) : Except Error Unit :=
  if status = some 0 then .ok ()
  else .error (.executionFailed (status.getD 1))

/-- The status handling of `Executor::execute_phar` (`src/executor.rs`
lines 88–96): `Ok` on success, else `ExecutionFailed(status.code().unwrap_or(1))`. -/
def execute_phar_result (status : Option Int) : Except Error Unit := statusResult status

/-- The status handling of `Executor::execute_script` (`src/executor.rs`
lines 136–144), identical to `execute_phar`. -/
def execute_script_result (status : Option Int) : Except Error Unit := statusResult status

/-- The process's final observable behaviour: its exit code and whether
`main` printed an error line of its own. -/
structure MainOutcome where
  exit_code : Int
  printed_error : Bool
deriving DecidableEq, Repr

/-- Model of `main` from `src/main.rs` lines 13–20: an `ExecutionFailed(code)`
error exits with `code` printing nothing; any other error prints one
diagnostic and exits 1; success exits 0. -/
def mainOutcome (r : Except Error Unit) : MainOutcome :=
  match r with
  | .ok _ => ⟨0, false⟩
  | .error (.executionFailed code) => ⟨code, false⟩
  | .error _ => ⟨1, true⟩

/-! ### Security manager (`src/security.rs`) -/

/-- Model of `SecurityManager::verify_signature` (`src/security.rs` lines 19–27):
logs a warning and returns `Ok(())` unconditionally, reading neither the
file nor the signature. -/
def verify_signature (_file_path : String) (_signature_url : Option String) :
    Except Error Unit :=
  .ok ()

/-! ### Isolated composer installer (`src/composer.rs`)

`resolve_composer_binary` and `find_php_for_composer` probe ambient state
(config, `PATH`, the `composer:latest` cache entry) and are abstracted as
oracle inputs; the external `composer install` subprocess is abstracted as
an oracle giving its success flag and the set of paths it creates. -/

/-- Structure `ComposerPackage` from `src/resolver.rs`. -/
structure ComposerPackage where
  package : String
  version : String
  bin_names : List String

/-- Outcome of the external `composer install` subprocess: whether it
exited successfully, and which paths it created. -/
structure ComposerRun where
  ok : Bool
  created : List String

/-- Result of a modelled `ensure_composer_installed` call, including
whether the external package manager was invoked. -/
structure InstallResult where
  result : Except Error (String × String)
  st : CMState
  fs : List String
  invoked_composer : Bool

/-- Model of `create_dir_all` and `fs::write`: ensure a path exists. -/
def insertPath (p : String) (fs : List String) : List String :=
  if p ∈ fs then fs else fs ++ [p]

/-- The install path of `ensure_composer_installed` (`src/composer.rs`
lines 111–168), entered when the early-return check fails: resolve the
composer and PHP binaries, create the install dir, write the synthetic
manifest, run `composer install` in isolation, require the expected
`vendor/bin` binary, then record the directory-type cache entry. -/
def composerInstallFresh (pkg : ComposerPackage) (cache_dir : String) (now : Nat)
    (composer_binary php_binary : Option String) (run : ComposerRun)
    (st : CMState) (fs : List String) (install_dir bin_name vendor_bin : String) :
    InstallResult :=
  match composer_binary with
  | none => ⟨.error .composerNotFound, st, fs, false⟩
  | some _ =>
    match php_binary with
    | none => ⟨.error (.execution "PHP not found. Install PHP or use --php"), st, fs, false⟩
    | some _ =>
      let fs1 := insertPath install_dir fs
      let fs2 := insertPath (install_dir ++ "/composer.json") fs1
      let fs3 := insertPath (cache_dir ++ "/composer_cache")
        (insertPath (cache_dir ++ "/composer_home") fs2)
      let fs4 := run.created.foldl (fun acc p => insertPath p acc) fs3
      if run.ok then
        if vendor_bin ∈ fs4 then
          let st' := add_composer_entry now pkg.package pkg.version install_dir bin_name st
          ⟨.ok (install_dir, vendor_bin), st', fs4, true⟩
        else
          ⟨.error (.composerInstallFailed ("vendor/bin/" ++ bin_name ++ " not found after install")),
           st, fs4, true⟩
      else ⟨.error (.composerInstallFailed "composer install failed"), st, fs4, true⟩

/-- The per-(package, version) install directory
`<cache_dir>/composer/<slug>-<version>` of `ensure_composer_installed`. -/
def installDirOf (pkg : ComposerPackage) (cache_dir : String) : String :=
  cache_dir ++ "/composer/" ++ replaceChar '/' '-' pkg.package ++ "-" ++ pkg.version

/-- Binary-name resolution: first declared bin name, else the package
name's final `/`-segment. -/
def binNameOf (pkg : ComposerPackage) : String :=
  match pkg.bin_names.head? with
  | some b => b
  | none => ((splitChar '/' pkg.package).getLast?).getD "tool"

/-- The expected installed binary `<install_dir>/vendor/bin/<bin_name>`. -/
def vendorBinOf (pkg : ComposerPackage) (cache_dir : String) : String :=
  installDirOf pkg cache_dir ++ "/vendor/bin/" ++ binNameOf pkg

/-- Model of `ensure_composer_installed` (`src/composer.rs` lines 84–169).  The
early return requires the install directory AND the expected
`vendor/bin/<bin_name>` to exist on disk AND a matching directory-type
cache entry (`is_composer` with `file_path` equal to the install dir);
looking the entry up mutates its `last_accessed`.  Otherwise the install
path runs. -/
def ensure_composer_installed (pkg : ComposerPackage) (cache_dir : String) (now : Nat)
    (composer_binary php_binary : Option String) (run : ComposerRun)
    (st : CMState) (fs : List String) : InstallResult :=
  let install_dir := installDirOf pkg cache_dir
  let bin_name := binNameOf pkg
  let vendor_bin := vendorBinOf pkg cache_dir
  if install_dir ∈ fs ∧ vendor_bin ∈ fs then
    match get_entry now pkg.package pkg.version st with
    | (some entry, st') =>
      if entry.is_composer ∧ entry.file_path = install_dir then
        ⟨.ok (install_dir, vendor_bin), st', fs, false⟩
      else
        composerInstallFresh pkg cache_dir now composer_binary php_binary run st' fs
          install_dir bin_name vendor_bin
    | (none, st') =>
      composerInstallFresh pkg cache_dir now composer_binary php_binary run st' fs
        install_dir bin_name vendor_bin
  else
    composerInstallFresh pkg cache_dir now composer_binary php_binary run st fs
      install_dir bin_name vendor_bin

/-! ### Supporting lemmas -/

theorem svLeR_refl {a : SemVer} : svLeR a a := by
  rw [svLeR_iff]; omega

/-- In a descending-sorted list, the first element satisfying `p` is an
upper bound of every element satisfying `p`. -/
theorem find?_descending_is_max {l : List SemVer} {p : SemVer → Bool} {w : SemVer}
    (hs : l.Pairwise (fun a b => svLeR b a)) (hf : l.find? p = some w) :
    ∀ x ∈ l, p x = true → svLeR x w := by
  induction l with
  | nil => simp at hf
  | cons a t ih =>
    rw [List.pairwise_cons] at hs
    intro x hx hpx
    rw [List.mem_cons] at hx
    by_cases hpa : p a = true
    · rw [List.find?_cons_of_pos _ hpa] at hf
      cases hf
      rcases hx with rfl | hx
      · exact svLeR_refl
      · exact hs.1 x hx
    · rw [List.find?_cons_of_neg _ (by simpa using hpa)] at hf
      rcases hx with rfl | hx
      · exact absurd hpx hpa
      · exact ih hs.2 hf x hx hpx

theorem lookupKey_mem {k : String} {l : List (String × CacheEntry)} {e : CacheEntry}
    (h : lookupKey k l = some e) : (k, e) ∈ l := by
  unfold lookupKey at h
  cases hf : l.find? (fun p => decide (p.1 = k)) with
  | none => rw [hf] at h; simp at h
  | some q =>
    rw [hf] at h
    have hq : q.1 = k := by simpa using List.find?_some hf
    have he : q.2 = e := by simpa using h
    have hqe : q = (k, e) := by rw [Prod.ext_iff]; exact ⟨hq, he⟩
    exact hqe ▸ List.mem_of_find?_eq_some hf

theorem lookupKey_exists_of_mem_keys {k : String} {l : List (String × CacheEntry)}
    (h : k ∈ l.map Prod.fst) : ∃ e, lookupKey k l = some e := by
  unfold lookupKey
  cases hf : l.find? (fun p => decide (p.1 = k)) with
  | some q => exact ⟨q.2, by simp⟩
  | none =>
    rw [List.find?_eq_none] at hf
    obtain ⟨p, hp, hpk⟩ := List.mem_map.mp h
    exact absurd (by simpa using hpk) (by simpa using hf p hp)

/-- With `Nodup` keys, the entry of a present pair is what lookup finds. -/
theorem lookupKey_eq_of_mem {k : String} {e : CacheEntry} {l : List (String × CacheEntry)}
    (hnd : (l.map Prod.fst).Nodup) (hmem : (k, e) ∈ l) : lookupKey k l = some e := by
  induction l with
  | nil => simp at hmem
  | cons q t ih =>
    rw [List.map_cons, List.nodup_cons] at hnd
    rw [List.mem_cons] at hmem
    unfold lookupKey
    by_cases hqk : q.1 = k
    · rw [List.find?_cons_of_pos _ (by simpa using hqk)]
      rcases hmem with rfl | hmem
      · rfl
      · exact absurd (hqk ▸ List.mem_map.mpr ⟨(k, e), hmem, rfl⟩) hnd.1
    · rw [List.find?_cons_of_neg _ (by simpa using hqk)]
      rcases hmem with rfl | hmem
      · simp at hqk
      · exact ih hnd.2 hmem

/-- With `Nodup` keys there is at most one entry per key. -/
theorem entry_unique_of_nodup {k : String} {e e' : CacheEntry}
    {l : List (String × CacheEntry)} (hnd : (l.map Prod.fst).Nodup)
    (h1 : (k, e) ∈ l) (h2 : (k, e') ∈ l) : e = e' := by
  have := lookupKey_eq_of_mem hnd h1
  have := lookupKey_eq_of_mem hnd h2
  simp_all

theorem mem_keys_eraseKey {k k' : String} {l : List (String × CacheEntry)} :
    k' ∈ (eraseKey k l).map Prod.fst ↔ (k' ∈ l.map Prod.fst ∧ k' ≠ k) := by
  unfold eraseKey
  simp only [List.mem_map, List.mem_filter, decide_eq_true_eq]
  constructor
  · rintro ⟨p, ⟨hp, hne⟩, rfl⟩
    exact ⟨⟨p, hp, rfl⟩, hne⟩
  · rintro ⟨⟨p, hp, rfl⟩, hne⟩
    exact ⟨p, ⟨hp, hne⟩, rfl⟩

theorem eraseKey_keys_nodup {k : String} {l : List (String × CacheEntry)}
    (hnd : (l.map Prod.fst).Nodup) : ((eraseKey k l).map Prod.fst).Nodup :=
  ((List.filter_sublist l).map Prod.fst).nodup hnd

theorem mem_eraseKey {k : String} {p : String × CacheEntry} {l : List (String × CacheEntry)} :
    p ∈ eraseKey k l ↔ p ∈ l ∧ p.1 ≠ k := by
  unfold eraseKey
  simp [List.mem_filter]

theorem deleteBacking_fst (k : String) (e : CacheEntry) (fs : List String) :
    (deleteBacking k e fs).1 = fs.filter (fun p => decide (p ≠ e.file_path)) := by
  unfold deleteBacking
  split
  · rfl
  · next h =>
    exact (List.filter_eq_self.mpr (fun a ha => by
      simp only [decide_eq_true_eq]
      intro heq
      exact h (heq ▸ ha))).symm

theorem lookupKey_insertKey_self (k : String) (e : CacheEntry)
    (l : List (String × CacheEntry)) : lookupKey k (insertKey k e l) = some e := by
  unfold insertKey
  by_cases hany : l.any (fun p => decide (p.1 = k)) = true
  · rw [if_pos hany]
    induction l with
    | nil => simp at hany
    | cons q t ih =>
      rw [List.any_cons, Bool.or_eq_true] at hany
      by_cases hqk : q.1 = k
      · rw [List.map_cons, if_pos hqk]
        show Option.map _ (List.find? _ _) = _
        rw [List.find?_cons_of_pos _ (by simp)]
        rfl
      · rw [List.map_cons, if_neg hqk]
        show Option.map _ (List.find? _ _) = _
        rw [List.find?_cons_of_neg _ (by simpa using hqk)]
        have ht : t.any (fun p => decide (p.1 = k)) = true := by
          rcases hany with h | h
          · exact absurd (by simpa using h) hqk
          · exact h
        exact ih ht
  · rw [if_neg hany]
    induction l with
    | nil => unfold lookupKey; simp
    | cons q t ih =>
      rw [List.any_cons, Bool.or_eq_true, not_or] at hany
      show Option.map _ (List.find? _ _) = _
      rw [List.cons_append, List.find?_cons_of_neg _ (by simpa using hany.1)]
      exact ih hany.2

/-! ### Claim theorems -/

/-- C9: `SecurityManager::verify_signature` is an unconditional no-op: for
every file path and every (possibly absent) signature URL it returns
success without inspecting either, so no download is ever rejected on
signature grounds. -/
theorem verify_signature_always_ok (file_path : String) (signature_url : Option String) :
    verify_signature file_path signature_url = .ok () := rfl

/-- C2: a child tool exiting with a non-zero status `n` makes the whole
process exit with status `n` and print no error text of its own: the
executor surfaces the exit as the pass-through `ExecutionFailed` error,
which `main` turns into `exit(n)` without printing. -/
theorem child_nonzero_exit_propagated (n : Int) (h : n ≠ 0) :
    execute_phar_result (some n) = .error (.executionFailed n) ∧
    execute_script_result (some n) = .error (.executionFailed n) ∧
    mainOutcome (execute_phar_result (some n)) = ⟨n, false⟩ ∧
    mainOutcome (execute_script_result (some n)) = ⟨n, false⟩ := by
  have hr : statusResult (some n) = .error (.executionFailed n) := by
    unfold statusResult
    rw [if_neg (by simpa using h)]
    rfl
  refine ⟨hr, hr, ?_, ?_⟩ <;>
    · show mainOutcome (statusResult (some n)) = _
      rw [hr]
      rfl

/-- C2 witness: a child exit status of 3 yields process exit 3 with no
extra error text. -/
theorem child_nonzero_exit_propagated_witness :
    (3 : Int) ≠ 0 ∧
    (execute_phar_result (some 3) = .error (.executionFailed 3) ∧
     execute_script_result (some 3) = .error (.executionFailed 3) ∧
     mainOutcome (execute_phar_result (some 3)) = ⟨3, false⟩ ∧
     mainOutcome (execute_script_result (some 3)) = ⟨3, false⟩) :=
  ⟨by decide, child_nonzero_exit_propagated 3 (by decide)⟩

/-- C10: a child process that terminates without an exit code (killed by a
signal) is reported by both executor paths as the pass-through failure
`ExecutionFailed(1)` — `status.code().unwrap_or(1)` — so the orchestrator
exits 1 with no printed error rather than propagating the signal. -/
theorem signal_termination_exits_one :
    execute_phar_result none = .error (.executionFailed 1) ∧
    execute_script_result none = .error (.executionFailed 1) ∧
    mainOutcome (execute_phar_result none) = ⟨1, false⟩ ∧
    mainOutcome (execute_script_result none) = ⟨1, false⟩ :=
  ⟨rfl, rfl, rfl, rfl⟩

/-- C3: for an identifier splitting into `name@x` where `x` is not the
literal `latest` and `x` fails range parsing, `parse_identifier` succeeds
with no version constraint and `x` stored as the exact-version literal;
and any identifier splitting into more than two `@`-segments is an
invalid-identifier error. -/
theorem parse_identifier_literal_and_arity
    (parseReq : String → Option VersionReq) (s name x t : String)
    (hsplit : splitChar '@' s = [name, x]) (hx : x ≠ "latest")
    (hreq : parseReq x = none) (ht : 2 < (splitChar '@' t).length) :
    parse_identifier parseReq s = .ok ⟨name, none, some x⟩ ∧
    parse_identifier parseReq t =
      .error (.invalidToolIdentifier "Invalid tool identifier format") := by
  constructor
  · unfold parse_identifier
    rw [hsplit]
    simp [hx, hreq]
  · unfold parse_identifier
    rcases hm : splitChar '@' t with _ | ⟨a, _ | ⟨b, _ | ⟨c, rest⟩⟩⟩ <;>
      rw [hm] at ht <;> simp_all

/-- C3 witness: `phpunit@dev-main` (with a failing range parse) and the
three-segment identifier `a@b@c`. -/
theorem parse_identifier_literal_and_arity_witness :
    splitChar '@' "phpunit@dev-main" = ["phpunit", "dev-main"] ∧
    ("dev-main" : String) ≠ "latest" ∧
    2 < (splitChar '@' "a@b@c").length ∧
    (parse_identifier (fun _ => none) "phpunit@dev-main" =
        .ok ⟨"phpunit", none, some "dev-main"⟩ ∧
     parse_identifier (fun _ => none) "a@b@c" =
        .error (.invalidToolIdentifier "Invalid tool identifier format")) :=
  ⟨by decide, by decide, by decide,
   parse_identifier_literal_and_arity (fun _ => none) "phpunit@dev-main" "phpunit"
     "dev-main" "a@b@c" (by decide) (by decide) rfl (by decide)⟩

/-- C1: whenever the caller requested a concrete version or a range (not
`latest` and not unspecified), the cache-lookup phase of `run_tool` never
returns an entry recorded under the synthetic version `"latest"` as a hit:
any entry it does return has a different recorded version, so such an
entry is treated as a miss and resolution continues. -/
theorem cache_latest_never_hits_specific (no_cache : Bool)
    (identifier : ToolIdentifier) (version? : Option String) (now : Nat)
    (verify : CacheEntry → Bool) (st : CMState) (e : CacheEntry)
    (hwant : user_wants_specific_version identifier = true)
    (hhit : (runToolCachePhase no_cache identifier version? now verify st).1 = some e) :
    e.version ≠ "latest" := by
  unfold runToolCachePhase at hhit
  split at hhit
  · simp at hhit
  · split at hhit
    · simp at hhit
    · rcases hg : get_entry now identifier.name _ st with ⟨eo, st'⟩
      rw [hg] at hhit
      rcases eo with _ | ce
      · simp at hhit
      · simp only at hhit
        split at hhit
        · simp at hhit
        · next hcond =>
          split at hhit
          · rw [Option.some_inj] at hhit
            subst hhit
            rw [hwant, Bool.true_and] at hcond
            simpa using hcond
          · simp at hhit

/-- C1 witness: a concrete-state hit under requested version `9.5.0`
returns an entry whose version is `9.5.0`, not `latest`. -/
theorem cache_latest_never_hits_specific_witness :
    user_wants_specific_version ⟨"phpunit", none, some "9.5.0"⟩ = true ∧
    (runToolCachePhase false ⟨"phpunit", none, some "9.5.0"⟩ (some "9.5.0") 10
        (fun _ => true)
        ⟨[("phpunit:9.5.0",
           ⟨"phpunit", "9.5.0", "/c/phpunit-9.5.0.phar", "u", none, 1, 5, 7, none, false⟩)],
         []⟩).1 =
      some ⟨"phpunit", "9.5.0", "/c/phpunit-9.5.0.phar", "u", none, 1, 10, 7, none, false⟩ ∧
    (⟨"phpunit", "9.5.0", "/c/phpunit-9.5.0.phar", "u", none, 1, 10, 7, none,
        false⟩ : CacheEntry).version ≠ "latest" :=
  ⟨rfl, rfl,
   cache_latest_never_hits_specific false ⟨"phpunit", none, some "9.5.0"⟩
     (some "9.5.0") 10 (fun _ => true)
     ⟨[("phpunit:9.5.0",
        ⟨"phpunit", "9.5.0", "/c/phpunit-9.5.0.phar", "u", none, 1, 5, 7, none, false⟩)],
      []⟩
     ⟨"phpunit", "9.5.0", "/c/phpunit-9.5.0.phar", "u", none, 1, 10, 7, none, false⟩
     rfl rfl⟩

/-- C6 counterexample: a cache hit (`get_entry` at time 10 on an entry
last accessed at 5) returns the entry with `last_accessed` updated in the
in-memory map, yet the on-disk document still carries the old value — the
mutation is NOT persisted immediately, refuting the claim at this input. -/
theorem get_entry_hit_not_persisted_counterexample :
    (get_entry 10 "rector" "0.15.2"
        ⟨[("rector:0.15.2", ⟨"rector", "0.15.2", "/c/r.phar", "u", none, 1, 5, 7, none, false⟩)],
         [("rector:0.15.2", ⟨"rector", "0.15.2", "/c/r.phar", "u", none, 1, 5, 7, none, false⟩)]⟩).1
      = some ⟨"rector", "0.15.2", "/c/r.phar", "u", none, 1, 10, 7, none, false⟩ ∧
    (get_entry 10 "rector" "0.15.2"
        ⟨[("rector:0.15.2", ⟨"rector", "0.15.2", "/c/r.phar", "u", none, 1, 5, 7, none, false⟩)],
         [("rector:0.15.2", ⟨"rector", "0.15.2", "/c/r.phar", "u", none, 1, 5, 7, none, false⟩)]⟩).2.entries
      = [("rector:0.15.2", ⟨"rector", "0.15.2", "/c/r.phar", "u", none, 1, 10, 7, none, false⟩)] ∧
    (get_entry 10 "rector" "0.15.2"
        ⟨[("rector:0.15.2", ⟨"rector", "0.15.2", "/c/r.phar", "u", none, 1, 5, 7, none, false⟩)],
         [("rector:0.15.2", ⟨"rector", "0.15.2", "/c/r.phar", "u", none, 1, 5, 7, none, false⟩)]⟩).2.disk
      = [("rector:0.15.2", ⟨"rector", "0.15.2", "/c/r.phar", "u", none, 1, 5, 7, none, false⟩)] ∧
    (get_entry 10 "rector" "0.15.2"
        ⟨[("rector:0.15.2", ⟨"rector", "0.15.2", "/c/r.phar", "u", none, 1, 5, 7, none, false⟩)],
         [("rector:0.15.2", ⟨"rector", "0.15.2", "/c/r.phar", "u", none, 1, 5, 7, none, false⟩)]⟩).2.disk
      ≠ (get_entry 10 "rector" "0.15.2"
        ⟨[("rector:0.15.2", ⟨"rector", "0.15.2", "/c/r.phar", "u", none, 1, 5, 7, none, false⟩)],
         [("rector:0.15.2", ⟨"rector", "0.15.2", "/c/r.phar", "u", none, 1, 5, 7, none, false⟩)]⟩).2.entries :=
  ⟨rfl, rfl, rfl, by decide⟩

/-- C6 amended: on every cache hit, `get_entry` sets the entry's
`last_accessed` to the current time in the returned entry and in the
in-memory map, but it does not rewrite the on-disk cache document — the
mutation reaches disk only when a later mutating operation saves. -/
theorem get_entry_updates_memory_not_disk (now : Nat) (tool_name version : String)
    (st : CMState) (e : CacheEntry)
    (h : (get_entry now tool_name version st).1 = some e) :
    e.last_accessed = now ∧
    lookupKey (build_key tool_name version) (get_entry now tool_name version st).2.entries
      = some e ∧
    (get_entry now tool_name version st).2.disk = st.disk := by
  unfold get_entry at h ⊢
  cases hl : lookupKey (build_key tool_name version) st.entries with
  | none =>
    simp only [hl] at h
    exact Option.noConfusion h
  | some entry =>
    simp only [hl, Option.some_inj] at h
    subst h
    refine ⟨rfl, ?_, ?_⟩
    · have hli := lookupKey_insertKey_self (build_key tool_name version)
        ({ entry with last_accessed := now }) st.entries
      simpa [hl] using hli
    · simp [hl]

/-- C6 amended witness: concrete hit at time 10 over an entry last
accessed at 5. -/
theorem get_entry_updates_memory_not_disk_witness :
    (get_entry 10 "rector" "0.18.0"
        ⟨[("rector:0.18.0", ⟨"rector", "0.18.0", "/c/r18.phar", "u", none, 1, 5, 7, none, false⟩)],
         [("rector:0.18.0", ⟨"rector", "0.18.0", "/c/r18.phar", "u", none, 1, 5, 7, none, false⟩)]⟩).1
      = some ⟨"rector", "0.18.0", "/c/r18.phar", "u", none, 1, 10, 7, none, false⟩ ∧
    ((⟨"rector", "0.18.0", "/c/r18.phar", "u", none, 1, 10, 7, none, false⟩ : CacheEntry).last_accessed = 10 ∧
     lookupKey (build_key "rector" "0.18.0")
        (get_entry 10 "rector" "0.18.0"
          ⟨[("rector:0.18.0", ⟨"rector", "0.18.0", "/c/r18.phar", "u", none, 1, 5, 7, none, false⟩)],
           [("rector:0.18.0", ⟨"rector", "0.18.0", "/c/r18.phar", "u", none, 1, 5, 7, none, false⟩)]⟩).2.entries
        = some ⟨"rector", "0.18.0", "/c/r18.phar", "u", none, 1, 10, 7, none, false⟩ ∧
     (get_entry 10 "rector" "0.18.0"
        ⟨[("rector:0.18.0", ⟨"rector", "0.18.0", "/c/r18.phar", "u", none, 1, 5, 7, none, false⟩)],
         [("rector:0.18.0", ⟨"rector", "0.18.0", "/c/r18.phar", "u", none, 1, 5, 7, none, false⟩)]⟩).2.disk
        = [("rector:0.18.0", ⟨"rector", "0.18.0", "/c/r18.phar", "u", none, 1, 5, 7, none, false⟩)]) :=
  ⟨rfl,
   get_entry_updates_memory_not_disk 10 "rector" "0.18.0"
     ⟨[("rector:0.18.0", ⟨"rector", "0.18.0", "/c/r18.phar", "u", none, 1, 5, 7, none, false⟩)],
      [("rector:0.18.0", ⟨"rector", "0.18.0", "/c/r18.phar", "u", none, 1, 5, 7, none, false⟩)]⟩
     ⟨"rector", "0.18.0", "/c/r18.phar", "u", none, 1, 10, 7, none, false⟩ rfl⟩

/-- C4: under a range constraint, `find_matching_version` returns exactly
the highest parseable version satisfying the constraint: if `v` is a
parsed candidate satisfying `req` that dominates every other satisfying
candidate, the selection is `v`. -/
theorem find_matching_version_selects_highest
    (versions : List String) (name : String) (req : VersionReq) (v : SemVer)
    (hv : v ∈ versions.filterMap parseSemVer) (hreq : req v = true)
    (hmax : ∀ w ∈ versions.filterMap parseSemVer, req w = true → svLeR w v) :
    find_matching_version versions ⟨name, some req, none⟩ = .ok (semverToString v) := by
  unfold find_matching_version
  simp only
  set candidates := ((versions.filterMap parseSemVer).insertionSort svLeR).reverse with hc
  have hsorted : candidates.Pairwise (fun a b => svLeR b a) := by
    rw [hc, List.pairwise_reverse]
    exact List.sorted_insertionSort svLeR _
  have hmemc : ∀ x : SemVer, x ∈ candidates ↔ x ∈ versions.filterMap parseSemVer := by
    intro x
    rw [hc, List.mem_reverse, List.mem_insertionSort]
  have hvc : v ∈ candidates := (hmemc v).mpr hv
  cases hfind : candidates.find? (fun w => req w) with
  | none =>
    rw [List.find?_eq_none] at hfind
    exact absurd hreq (by simpa using hfind v hvc)
  | some w =>
    have hpw : req w = true := List.find?_some hfind
    have hwc : w ∈ candidates := List.mem_of_find?_eq_some hfind
    have h1 : svLeR w v := hmax w ((hmemc w).mp hwc) hpw
    have h2 : svLeR v w := find?_descending_is_max hsorted hfind v hvc hreq
    rw [svLeR_antisymm h1 h2]

/-- C4 witness: versions `{1.9.0, 1.10.0, 2.0.0}` with constraint `^1.0`
select `1.10.0`, never `2.0.0` or `1.9.0`. -/
theorem find_matching_version_selects_highest_witness :
    (⟨1, 10, 0⟩ : SemVer) ∈ (["1.9.0", "1.10.0", "2.0.0"].filterMap parseSemVer) ∧
    caretOneZero ⟨1, 10, 0⟩ = true ∧
    (∀ w ∈ (["1.9.0", "1.10.0", "2.0.0"].filterMap parseSemVer),
      caretOneZero w = true → svLeR w ⟨1, 10, 0⟩) ∧
    find_matching_version ["1.9.0", "1.10.0", "2.0.0"]
      ⟨"tool", some caretOneZero, none⟩ = .ok "1.10.0" := by
  refine ⟨by decide, rfl, by decide, ?_⟩
  have h := find_matching_version_selects_highest ["1.9.0", "1.10.0", "2.0.0"] "tool"
    caretOneZero ⟨1, 10, 0⟩ (by decide) rfl (by decide)
  have hs : semverToString ⟨1, 10, 0⟩ = "1.10.0" := rfl
  rw [hs] at h
  exact h

/-- In the removal loop's event trace, every deletion event is preceded by
the map drop of its own key. -/
theorem removeKeysLoop_drop_before_delete (keys : List String)
    (es : List (String × CacheEntry)) (fs : List String) (ev : CacheEvent) (k : String)
    (hmem : ev ∈ (removeKeysLoop keys es fs).2.2) (hdel : deleteEventKey ev = some k) :
    [CacheEvent.mapRemove k, ev].Sublist (removeKeysLoop keys es fs).2.2 := by
  induction keys generalizing es fs with
  | nil => simp [removeKeysLoop] at hmem
  | cons key ks ih =>
    unfold removeKeysLoop at hmem ⊢
    cases hl : lookupKey key es with
    | none =>
      rw [hl] at hmem
      exact ih _ _ hmem
    | some entry =>
      rw [hl] at hmem
      dsimp only at hmem ⊢
      rw [List.mem_append] at hmem
      rcases hmem with hmem | hmem
      · -- in the head segment `mapRemove key :: deleteBacking events`
        rw [List.mem_cons] at hmem
        rcases hmem with rfl | hmem
        · simp [deleteEventKey] at hdel
        · -- ev is the (single) deletion event of `key`
          unfold deleteBacking at hmem
          split at hmem
          · next hfs =>
            rw [List.mem_singleton] at hmem
            subst hmem
            have hk : k = key := by
              by_cases hic : entry.is_composer
              · rw [if_pos hic] at hdel
                simpa [deleteEventKey] using hdel.symm
              · rw [if_neg hic] at hdel
                simpa [deleteEventKey] using hdel.symm
            subst hk
            refine List.Sublist.trans ?_ (List.sublist_append_left _ _)
            have hdb : (deleteBacking k entry fs).2 =
                [if entry.is_composer then CacheEvent.fsDeleteDir k entry.file_path
                 else CacheEvent.fsDeleteFile k entry.file_path] := by
              unfold deleteBacking
              rw [if_pos hfs]
            rw [hdb]
          · simp at hmem
      · exact ((ih _ _ hmem).trans (List.sublist_append_right _ _)).cons _

/-- C8 counterexample: removing `phpunit@9.5.0` from a concrete cache
produces the event order map-drop, then file deletion, then save — the
deletion does NOT precede the map drop, refuting the claimed order. -/
theorem removal_order_counterexample :
    (remove_entry "phpunit" (some "9.5.0")
        ⟨[("phpunit:9.5.0",
           ⟨"phpunit", "9.5.0", "/c/p.phar", "u", none, 1, 5, 7, none, false⟩)],
         [("phpunit:9.5.0",
           ⟨"phpunit", "9.5.0", "/c/p.phar", "u", none, 1, 5, 7, none, false⟩)]⟩
        ["/c/p.phar"]).2.2 =
      [CacheEvent.mapRemove "phpunit:9.5.0",
       CacheEvent.fsDeleteFile "phpunit:9.5.0" "/c/p.phar", CacheEvent.save] ∧
    ¬ ([CacheEvent.fsDeleteFile "phpunit:9.5.0" "/c/p.phar",
        CacheEvent.mapRemove "phpunit:9.5.0"].Sublist
        [CacheEvent.mapRemove "phpunit:9.5.0",
         CacheEvent.fsDeleteFile "phpunit:9.5.0" "/c/p.phar", CacheEvent.save]) :=
  ⟨rfl, by decide⟩

/-- C8 amended: for every removal (single version or tool-scoped), the
map entry is dropped first and its backing storage deleted immediately
after (directory delete for directory-backed entries, file delete
otherwise), with the document save last; the claimed delete-before-drop
order is reversed. -/
theorem removal_drop_then_delete (tool_name : String) (version : Option String)
    (st : CMState) (fs : List String) (ev : CacheEvent) (k : String)
    (hmem : ev ∈ (remove_entry tool_name version st fs).2.2)
    (hdel : deleteEventKey ev = some k) :
    [CacheEvent.mapRemove k, ev].Sublist (remove_entry tool_name version st fs).2.2 := by
  unfold remove_entry at hmem ⊢
  simp only at hmem ⊢
  rw [List.mem_append] at hmem
  rcases hmem with hmem | hmem
  · exact (removeKeysLoop_drop_before_delete _ _ _ _ _ hmem hdel).trans
      (List.sublist_append_left _ _)
  · rw [List.mem_singleton] at hmem
    subst hmem
    simp [deleteEventKey] at hdel

/-- C8 amended witness: the concrete removal above, at its deletion
event. -/
theorem removal_drop_then_delete_witness :
    CacheEvent.fsDeleteFile "phpunit:9.5.0" "/c/p.phar" ∈
      (remove_entry "phpunit" (some "9.5.0")
        ⟨[("phpunit:9.5.0",
           ⟨"phpunit", "9.5.0", "/c/p.phar", "u", none, 1, 5, 7, none, false⟩)],
         [("phpunit:9.5.0",
           ⟨"phpunit", "9.5.0", "/c/p.phar", "u", none, 1, 5, 7, none, false⟩)]⟩
        ["/c/p.phar"]).2.2 ∧
    [CacheEvent.mapRemove "phpunit:9.5.0",
     CacheEvent.fsDeleteFile "phpunit:9.5.0" "/c/p.phar"].Sublist
      (remove_entry "phpunit" (some "9.5.0")
        ⟨[("phpunit:9.5.0",
           ⟨"phpunit", "9.5.0", "/c/p.phar", "u", none, 1, 5, 7, none, false⟩)],
         [("phpunit:9.5.0",
           ⟨"phpunit", "9.5.0", "/c/p.phar", "u", none, 1, 5, 7, none, false⟩)]⟩
        ["/c/p.phar"]).2.2 :=
  ⟨by decide,
   removal_drop_then_delete "phpunit" (some "9.5.0")
     ⟨[("phpunit:9.5.0",
        ⟨"phpunit", "9.5.0", "/c/p.phar", "u", none, 1, 5, 7, none, false⟩)],
      [("phpunit:9.5.0",
        ⟨"phpunit", "9.5.0", "/c/p.phar", "u", none, 1, 5, 7, none, false⟩)]⟩
     ["/c/p.phar"] (CacheEvent.fsDeleteFile "phpunit:9.5.0" "/c/p.phar")
     "phpunit:9.5.0" (by decide) rfl⟩

theorem mem_insertPath_self (p : String) (fs : List String) : p ∈ insertPath p fs := by
  unfold insertPath
  split
  · assumption
  · simp

theorem mem_insertPath_of_mem {q : String} (p : String) {fs : List String}
    (h : q ∈ fs) : q ∈ insertPath p fs := by
  unfold insertPath
  split
  · exact h
  · exact List.mem_append_left _ h

theorem mem_foldl_insertPath {q : String} {fs : List String} (ps : List String)
    (h : q ∈ fs) : q ∈ ps.foldl (fun acc p => insertPath p acc) fs := by
  induction ps generalizing fs with
  | nil => exact h
  | cons p ps ih => exact ih (mem_insertPath_of_mem p h)

/-- A successful run of the fresh-install path pins the returned paths,
records the directory-type cache entry, and leaves both paths present. -/
theorem composerInstallFresh_ok (pkg : ComposerPackage) (cache_dir : String) (now : Nat)
    (cb pb : Option String) (run : ComposerRun) (st : CMState) (fs : List String)
    (dir bin : String)
    (h : (composerInstallFresh pkg cache_dir now cb pb run st fs
        (installDirOf pkg cache_dir) (binNameOf pkg) (vendorBinOf pkg cache_dir)).result
      = .ok (dir, bin)) :
    dir = installDirOf pkg cache_dir ∧ bin = vendorBinOf pkg cache_dir ∧
    (composerInstallFresh pkg cache_dir now cb pb run st fs
        (installDirOf pkg cache_dir) (binNameOf pkg) (vendorBinOf pkg cache_dir)).st
      = add_composer_entry now pkg.package pkg.version (installDirOf pkg cache_dir)
          (binNameOf pkg) st ∧
    installDirOf pkg cache_dir ∈ (composerInstallFresh pkg cache_dir now cb pb run st fs
        (installDirOf pkg cache_dir) (binNameOf pkg) (vendorBinOf pkg cache_dir)).fs ∧
    vendorBinOf pkg cache_dir ∈ (composerInstallFresh pkg cache_dir now cb pb run st fs
        (installDirOf pkg cache_dir) (binNameOf pkg) (vendorBinOf pkg cache_dir)).fs := by
  unfold composerInstallFresh at h ⊢
  cases cb with
  | none => simp at h
  | some c =>
    cases pb with
    | none => simp at h
    | some p =>
      dsimp only at h ⊢
      by_cases hok : run.ok = true
      · rw [if_pos hok] at h ⊢
        split at h
        · next hvb =>
          rw [if_pos hvb]
          have hh : installDirOf pkg cache_dir = dir ∧ vendorBinOf pkg cache_dir = bin := by
            simpa using h
          refine ⟨hh.1.symm, hh.2.symm, rfl, ?_, hvb⟩
          exact mem_foldl_insertPath _ (mem_insertPath_of_mem _ (mem_insertPath_of_mem _
            (mem_insertPath_of_mem _ (mem_insertPath_self _ _))))
        · next hvb => simp at h
      · rw [if_neg hok] at h
        simp at h

/-- Any call finding both paths on disk and a matching directory-type
cache entry returns immediately without invoking the package manager. -/
theorem ensure_composer_installed_early (pkg : ComposerPackage) (cache_dir : String)
    (now : Nat) (cb pb : Option String) (run : ComposerRun) (st : CMState)
    (fs : List String) (e : CacheEntry)
    (hdir : installDirOf pkg cache_dir ∈ fs) (hbin : vendorBinOf pkg cache_dir ∈ fs)
    (hlook : lookupKey (build_key pkg.package pkg.version) st.entries = some e)
    (hic : e.is_composer = true) (hfp : e.file_path = installDirOf pkg cache_dir) :
    (ensure_composer_installed pkg cache_dir now cb pb run st fs).result
      = .ok (installDirOf pkg cache_dir, vendorBinOf pkg cache_dir) ∧
    (ensure_composer_installed pkg cache_dir now cb pb run st fs).invoked_composer
      = false := by
  unfold ensure_composer_installed
  rw [if_pos ⟨hdir, hbin⟩]
  unfold get_entry
  simp only [hlook]
  rw [if_pos ⟨by simpa using hic, by simpa using hfp⟩]
  exact ⟨rfl, rfl⟩

/-- C7 counterexample: with the install directory and
`vendor/bin/rector` both already present on disk but no cache map entry
(e.g. a wiped `cache.json`), `install_tool` does NOT return immediately:
it runs the external package manager again, refuting idempotence "by
filesystem presence alone". -/
theorem install_presence_alone_counterexample :
    "/c/composer/rector-rector-1.0.0" ∈
      ["/c/composer/rector-rector-1.0.0",
       "/c/composer/rector-rector-1.0.0/vendor/bin/rector"] ∧
    "/c/composer/rector-rector-1.0.0/vendor/bin/rector" ∈
      ["/c/composer/rector-rector-1.0.0",
       "/c/composer/rector-rector-1.0.0/vendor/bin/rector"] ∧
    installDirOf ⟨"rector/rector", "1.0.0", ["rector"]⟩ "/c"
      = "/c/composer/rector-rector-1.0.0" ∧
    vendorBinOf ⟨"rector/rector", "1.0.0", ["rector"]⟩ "/c"
      = "/c/composer/rector-rector-1.0.0/vendor/bin/rector" ∧
    (ensure_composer_installed ⟨"rector/rector", "1.0.0", ["rector"]⟩ "/c" 5
        (some "/usr/local/bin/composer") (some "php")
        ⟨true, ["/c/composer/rector-rector-1.0.0/vendor/bin/rector"]⟩
        ⟨[], []⟩
        ["/c/composer/rector-rector-1.0.0",
         "/c/composer/rector-rector-1.0.0/vendor/bin/rector"]).invoked_composer
      = true :=
  ⟨by decide, by decide, rfl, rfl, rfl⟩

/-- C7 amended: the early return of `install_tool` requires the
filesystem presence AND a matching directory-type cache map entry; still,
calling it twice for the identical `(package, version)` performs the
install step only once — whenever a first call succeeds, the immediately
following call returns the same paths without invoking the package
manager. -/
theorem install_twice_installs_once (pkg : ComposerPackage) (cache_dir : String)
    (now now2 : Nat) (cb pb cb2 pb2 : Option String) (run run2 : ComposerRun)
    (st : CMState) (fs : List String) (dir bin : String)
    (h : (ensure_composer_installed pkg cache_dir now cb pb run st fs).result
      = .ok (dir, bin)) :
    (ensure_composer_installed pkg cache_dir now2 cb2 pb2 run2
        (ensure_composer_installed pkg cache_dir now cb pb run st fs).st
        (ensure_composer_installed pkg cache_dir now cb pb run st fs).fs).result
      = .ok (dir, bin) ∧
    (ensure_composer_installed pkg cache_dir now2 cb2 pb2 run2
        (ensure_composer_installed pkg cache_dir now cb pb run st fs).st
        (ensure_composer_installed pkg cache_dir now cb pb run st fs).fs).invoked_composer
      = false := by
  have freshCase : ∀ st0 : CMState,
      (composerInstallFresh pkg cache_dir now cb pb run st0 fs
          (installDirOf pkg cache_dir) (binNameOf pkg) (vendorBinOf pkg cache_dir)).result
        = .ok (dir, bin) →
      dir = installDirOf pkg cache_dir ∧ bin = vendorBinOf pkg cache_dir ∧
      installDirOf pkg cache_dir ∈ (composerInstallFresh pkg cache_dir now cb pb run st0 fs
          (installDirOf pkg cache_dir) (binNameOf pkg) (vendorBinOf pkg cache_dir)).fs ∧
      vendorBinOf pkg cache_dir ∈ (composerInstallFresh pkg cache_dir now cb pb run st0 fs
          (installDirOf pkg cache_dir) (binNameOf pkg) (vendorBinOf pkg cache_dir)).fs ∧
      ∃ e : CacheEntry,
        lookupKey (build_key pkg.package pkg.version)
            (composerInstallFresh pkg cache_dir now cb pb run st0 fs
              (installDirOf pkg cache_dir) (binNameOf pkg) (vendorBinOf pkg cache_dir)).st.entries
          = some e ∧
        e.is_composer = true ∧ e.file_path = installDirOf pkg cache_dir := by
    intro st0 h0
    obtain ⟨h1, h2, h3, h4, h5⟩ :=
      composerInstallFresh_ok pkg cache_dir now cb pb run st0 fs dir bin h0
    refine ⟨h1, h2, h4, h5, ?_⟩
    rw [h3]
    exact ⟨_, lookupKey_insertKey_self _ _ _, rfl, rfl⟩
  have main : dir = installDirOf pkg cache_dir ∧ bin = vendorBinOf pkg cache_dir ∧
      installDirOf pkg cache_dir ∈ (ensure_composer_installed pkg cache_dir now cb pb run st fs).fs ∧
      vendorBinOf pkg cache_dir ∈ (ensure_composer_installed pkg cache_dir now cb pb run st fs).fs ∧
      ∃ e : CacheEntry,
        lookupKey (build_key pkg.package pkg.version)
            (ensure_composer_installed pkg cache_dir now cb pb run st fs).st.entries = some e ∧
        e.is_composer = true ∧ e.file_path = installDirOf pkg cache_dir := by
    unfold ensure_composer_installed at h ⊢
    dsimp only at h ⊢
    by_cases hpresent : installDirOf pkg cache_dir ∈ fs ∧ vendorBinOf pkg cache_dir ∈ fs
    · rw [if_pos hpresent] at h ⊢
      rcases hg : get_entry now pkg.package pkg.version st with ⟨eo, st'⟩
      rcases eo with _ | entry
      · rw [hg] at h
        exact freshCase st' h
      · rw [hg] at h
        dsimp only at h ⊢
        by_cases hmatch : entry.is_composer = true ∧
            entry.file_path = installDirOf pkg cache_dir
        · rw [if_pos hmatch] at h ⊢
          have hh : installDirOf pkg cache_dir = dir ∧ vendorBinOf pkg cache_dir = bin := by
            simpa using h
          refine ⟨hh.1.symm, hh.2.symm, hpresent.1, hpresent.2, ?_⟩
          -- the early-returned state keeps the (refreshed) matching entry
          have hst' : st'.entries = insertKey (build_key pkg.package pkg.version)
              entry st.entries := by
            unfold get_entry at hg
            dsimp only at hg
            cases hl : lookupKey (build_key pkg.package pkg.version) st.entries with
            | none =>
              rw [hl] at hg
              simp at hg
            | some e0 =>
              simp only [hl, Prod.mk.injEq, Option.some_inj] at hg
              rw [← hg.2]
              dsimp only
              rw [hg.1]
          refine ⟨entry, ?_, hmatch.1, hmatch.2⟩
          dsimp only
          rw [hst']
          exact lookupKey_insertKey_self _ _ _
        · rw [if_neg hmatch] at h ⊢
          exact freshCase st' h
    · rw [if_neg hpresent] at h ⊢
      exact freshCase st h
  obtain ⟨hdir, hbin, hfs1, hfs2, e, hlook, hic, hfp⟩ := main
  have hsecond := ensure_composer_installed_early pkg cache_dir now2 cb2 pb2 run2
    (ensure_composer_installed pkg cache_dir now cb pb run st fs).st
    (ensure_composer_installed pkg cache_dir now cb pb run st fs).fs e hfs1 hfs2 hlook hic hfp
  rw [hdir, hbin]
  exact hsecond

/-- C7 amended witness: a concrete first call that performs the install;
the second call succeeds without invoking the package manager. -/
theorem install_twice_installs_once_witness :
    (ensure_composer_installed ⟨"rector/rector", "1.0.0", ["rector"]⟩ "/c" 5
        (some "/usr/local/bin/composer") (some "php")
        ⟨true, ["/c/composer/rector-rector-1.0.0/vendor/bin/rector"]⟩
        ⟨[], []⟩ []).result
      = .ok ("/c/composer/rector-rector-1.0.0",
             "/c/composer/rector-rector-1.0.0/vendor/bin/rector") ∧
    ((ensure_composer_installed ⟨"rector/rector", "1.0.0", ["rector"]⟩ "/c" 9
        (some "/usr/local/bin/composer") (some "php")
        ⟨true, []⟩
        (ensure_composer_installed ⟨"rector/rector", "1.0.0", ["rector"]⟩ "/c" 5
          (some "/usr/local/bin/composer") (some "php")
          ⟨true, ["/c/composer/rector-rector-1.0.0/vendor/bin/rector"]⟩
          ⟨[], []⟩ []).st
        (ensure_composer_installed ⟨"rector/rector", "1.0.0", ["rector"]⟩ "/c" 5
          (some "/usr/local/bin/composer") (some "php")
          ⟨true, ["/c/composer/rector-rector-1.0.0/vendor/bin/rector"]⟩
          ⟨[], []⟩ []).fs).result
      = .ok ("/c/composer/rector-rector-1.0.0",
             "/c/composer/rector-rector-1.0.0/vendor/bin/rector") ∧
     (ensure_composer_installed ⟨"rector/rector", "1.0.0", ["rector"]⟩ "/c" 9
        (some "/usr/local/bin/composer") (some "php")
        ⟨true, []⟩
        (ensure_composer_installed ⟨"rector/rector", "1.0.0", ["rector"]⟩ "/c" 5
          (some "/usr/local/bin/composer") (some "php")
          ⟨true, ["/c/composer/rector-rector-1.0.0/vendor/bin/rector"]⟩
          ⟨[], []⟩ []).st
        (ensure_composer_installed ⟨"rector/rector", "1.0.0", ["rector"]⟩ "/c" 5
          (some "/usr/local/bin/composer") (some "php")
          ⟨true, ["/c/composer/rector-rector-1.0.0/vendor/bin/rector"]⟩
          ⟨[], []⟩ []).fs).invoked_composer = false) :=
  ⟨rfl,
   install_twice_installs_once ⟨"rector/rector", "1.0.0", ["rector"]⟩ "/c" 5 9
     (some "/usr/local/bin/composer") (some "php")
     (some "/usr/local/bin/composer") (some "php")
     ⟨true, ["/c/composer/rector-rector-1.0.0/vendor/bin/rector"]⟩ ⟨true, []⟩
     ⟨[], []⟩ [] "/c/composer/rector-rector-1.0.0"
     "/c/composer/rector-rector-1.0.0/vendor/bin/rector" rfl⟩

/-- Splitting the removed backing paths at a removed key, for `Nodup`
key lists. -/
theorem removedPathsOf_cons {k : String} {ks : List String}
    {es : List (String × CacheEntry)} {e : CacheEntry}
    (hnd : (es.map Prod.fst).Nodup) (hke : (k, e) ∈ es) (hknotin : k ∉ ks)
    (q : String) :
    q ∈ removedPathsOf (k :: ks) es ↔
      (q = e.file_path ∨ q ∈ removedPathsOf ks (eraseKey k es)) := by
  unfold removedPathsOf
  simp only [List.mem_map, List.mem_filter, decide_eq_true_eq, List.mem_cons]
  constructor
  · rintro ⟨p, ⟨hp, hpk⟩, rfl⟩
    rcases hpk with hpk | hpk
    · left
      have hp2 : (k, p.2) ∈ es := by
        rw [← hpk]
        simpa using hp
      have hpe : p.2 = e := entry_unique_of_nodup hnd hp2 hke
      rw [hpe]
    · right
      exact ⟨p, ⟨mem_eraseKey.mpr ⟨hp, fun h => hknotin (h ▸ hpk)⟩, hpk⟩, rfl⟩
  · rintro (rfl | ⟨p, ⟨hp, hpk⟩, rfl⟩)
    · exact ⟨(k, e), ⟨hke, Or.inl rfl⟩, rfl⟩
    · obtain ⟨hpes, hpnek⟩ := mem_eraseKey.mp hp
      exact ⟨p, ⟨hpes, Or.inr hpk⟩, rfl⟩

/-- Characterization of the removal loop on a `Nodup`-keyed map with a
`Nodup` key list drawn from the map: exactly the listed keys are dropped,
and exactly their backing paths disappear from the filesystem. -/
theorem removeKeysLoop_spec (keys : List String) (es : List (String × CacheEntry))
    (fs : List String) (hnd : (es.map Prod.fst).Nodup)
    (hsub : ∀ k ∈ keys, k ∈ es.map Prod.fst) (hknd : keys.Nodup) :
    (removeKeysLoop keys es fs).1 = es.filter (fun p => decide (p.1 ∉ keys)) ∧
    (removeKeysLoop keys es fs).2.1
      = fs.filter (fun q => decide (q ∉ removedPathsOf keys es)) := by
  induction keys generalizing es fs with
  | nil =>
    constructor
    · simp [removeKeysLoop]
    · simp [removeKeysLoop, removedPathsOf]
  | cons k ks ih =>
    obtain ⟨e, he⟩ := lookupKey_exists_of_mem_keys (hsub k (List.mem_cons_self k ks))
    have hke : (k, e) ∈ es := lookupKey_mem he
    rw [List.nodup_cons] at hknd
    unfold removeKeysLoop
    rw [he]
    dsimp only
    have hnd' : ((eraseKey k es).map Prod.fst).Nodup := eraseKey_keys_nodup hnd
    have hsub' : ∀ k' ∈ ks, k' ∈ (eraseKey k es).map Prod.fst := by
      intro k' hk'
      rw [mem_keys_eraseKey]
      exact ⟨hsub k' (List.mem_cons_of_mem _ hk'), fun hkk => hknd.1 (hkk ▸ hk')⟩
    obtain ⟨ih1, ih2⟩ := ih (eraseKey k es) ((deleteBacking k e fs).1) hnd' hsub' hknd.2
    constructor
    · rw [ih1]
      unfold eraseKey
      rw [List.filter_filter]
      apply List.filter_congr
      intro p _
      have hiff : (p.1 ∉ (k :: ks)) ↔ (p.1 ∉ ks ∧ p.1 ≠ k) := by
        rw [List.mem_cons, not_or, and_comm]
      rw [decide_eq_decide.mpr hiff]
      exact (Bool.decide_and _ _).symm
    · rw [ih2, deleteBacking_fst, List.filter_filter]
      apply List.filter_congr
      intro q _
      have hiff : (q ∉ removedPathsOf (k :: ks) es) ↔
          (q ∉ removedPathsOf ks (eraseKey k es) ∧ q ≠ e.file_path) := by
        rw [removedPathsOf_cons hnd hke hknd.1 q, not_or, and_comm]
      rw [decide_eq_decide.mpr hiff]
      exact (Bool.decide_and _ _).symm

/-- C5 counterexample: the cache holds two entries sharing the backing
path `/c/x.phar` — `a-b@c` (stale, last accessed at 0) and `a@b-c`
(fresh, last accessed at 100).  The sweep at `now = 100, ttl = 50`
removes only the stale entry but deletes the shared file, so the
surviving fresh entry's backing file is NOT left untouched, refuting the
claim at this input. -/
theorem ttl_sweep_counterexample :
    expiredB 100 50 ("a-b:c", ⟨"a-b", "c", "/c/x.phar", "u", none, 0, 0, 7, none, false⟩)
      = true ∧
    expiredB 100 50 ("a:b-c", ⟨"a", "b-c", "/c/x.phar", "u", none, 0, 100, 7, none, false⟩)
      = false ∧
    lookupKey "a:b-c"
      (cleanup_old_entries 100 50
        ⟨[("a-b:c", ⟨"a-b", "c", "/c/x.phar", "u", none, 0, 0, 7, none, false⟩),
          ("a:b-c", ⟨"a", "b-c", "/c/x.phar", "u", none, 0, 100, 7, none, false⟩)],
         []⟩
        ["/c/x.phar"]).1.entries
      = some ⟨"a", "b-c", "/c/x.phar", "u", none, 0, 100, 7, none, false⟩ ∧
    "/c/x.phar" ∉
      (cleanup_old_entries 100 50
        ⟨[("a-b:c", ⟨"a-b", "c", "/c/x.phar", "u", none, 0, 0, 7, none, false⟩),
          ("a:b-c", ⟨"a", "b-c", "/c/x.phar", "u", none, 0, 100, 7, none, false⟩)],
         []⟩
        ["/c/x.phar"]).2 :=
  ⟨by decide, by decide, by decide, by decide⟩

/-- C5 amended: on a cache whose keys are distinct (the `HashMap`
invariant), the TTL sweep removes from the map exactly the entries whose
wrapping `u64` age `now - last_accessed` strictly exceeds `ttl`,
persists the surviving map, and deletes from the filesystem exactly the
expired entries' backing paths — every other entry is untouched, and its
backing file survives provided it is not shared with an expired entry. -/
theorem ttl_sweep_exact (now ttl : Nat) (st : CMState) (fs : List String)
    (hnd : (st.entries.map Prod.fst).Nodup) :
    (cleanup_old_entries now ttl st fs).1.entries
      = st.entries.filter (fun p => !expiredB now ttl p) ∧
    (cleanup_old_entries now ttl st fs).1.disk
      = st.entries.filter (fun p => !expiredB now ttl p) ∧
    (cleanup_old_entries now ttl st fs).2
      = fs.filter (fun q => decide (q ∉ (st.entries.filter (expiredB now ttl)).map
          (fun p => p.2.file_path))) := by
  unfold cleanup_old_entries
  dsimp only
  have hsub : ∀ k ∈ (st.entries.filter (expiredB now ttl)).map (fun p => p.1),
      k ∈ st.entries.map Prod.fst := by
    intro k hk
    obtain ⟨p, hp, rfl⟩ := List.mem_map.mp hk
    exact List.mem_map.mpr ⟨p, (List.mem_filter.mp hp).1, rfl⟩
  have hknd : ((st.entries.filter (expiredB now ttl)).map (fun p => p.1)).Nodup :=
    ((List.filter_sublist st.entries).map (fun p => p.1)).nodup hnd
  obtain ⟨h1, h2⟩ := removeKeysLoop_spec
    ((st.entries.filter (expiredB now ttl)).map (fun p => p.1)) st.entries fs
    hnd hsub hknd
  have hkey_iff : ∀ p ∈ st.entries,
      (p.1 ∈ (st.entries.filter (expiredB now ttl)).map (fun p => p.1)
        ↔ expiredB now ttl p = true) := by
    intro p hp
    constructor
    · intro hpk
      obtain ⟨p', hp', hp'k⟩ := List.mem_map.mp hpk
      rw [List.mem_filter] at hp'
      have hpair : (p.1, p'.2) ∈ st.entries := by
        rw [← hp'k]
        simpa using hp'.1
      have hpair2 : (p.1, p.2) ∈ st.entries := by simpa using hp
      have hpe : p'.2 = p.2 := entry_unique_of_nodup hnd hpair hpair2
      have hx := hp'.2
      unfold expiredB at hx ⊢
      rw [← hpe]
      exact hx
    · intro hexp
      exact List.mem_map.mpr ⟨p, List.mem_filter.mpr ⟨hp, hexp⟩, rfl⟩
  refine ⟨?_, ?_, ?_⟩
  · rw [h1]
    apply List.filter_congr
    intro p hp
    by_cases hb : expiredB now ttl p = true
    · have hmem := (hkey_iff p hp).mpr hb
      rw [hb]
      simp [hmem]
    · have hmem : p.1 ∉ (st.entries.filter (expiredB now ttl)).map (fun p => p.1) :=
        fun hm => hb ((hkey_iff p hp).mp hm)
      have hb' : expiredB now ttl p = false := by
        cases h' : expiredB now ttl p
        · rfl
        · exact absurd h' hb
      rw [hb']
      simp [hmem]
  · rw [h1]
    apply List.filter_congr
    intro p hp
    by_cases hb : expiredB now ttl p = true
    · have hmem := (hkey_iff p hp).mpr hb
      rw [hb]
      simp [hmem]
    · have hmem : p.1 ∉ (st.entries.filter (expiredB now ttl)).map (fun p => p.1) :=
        fun hm => hb ((hkey_iff p hp).mp hm)
      have hb' : expiredB now ttl p = false := by
        cases h' : expiredB now ttl p
        · rfl
        · exact absurd h' hb
      rw [hb']
      simp [hmem]
  · rw [h2]
    apply List.filter_congr
    intro q _
    have hpaths : removedPathsOf
        ((st.entries.filter (expiredB now ttl)).map (fun p => p.1)) st.entries
        = (st.entries.filter (expiredB now ttl)).map (fun p => p.2.file_path) := by
      unfold removedPathsOf
      have hfe : st.entries.filter
          (fun p => decide (p.1 ∈ (st.entries.filter (expiredB now ttl)).map (fun p => p.1)))
          = st.entries.filter (expiredB now ttl) := by
        apply List.filter_congr
        intro p hp
        by_cases hb : expiredB now ttl p = true
        · have hmem := (hkey_iff p hp).mpr hb
          rw [hb]
          simp [hmem]
        · have hmem : p.1 ∉ (st.entries.filter (expiredB now ttl)).map (fun p => p.1) :=
            fun hm => hb ((hkey_iff p hp).mp hm)
          have hb' : expiredB now ttl p = false := by
            cases h' : expiredB now ttl p
            · rfl
            · exact absurd h' hb
          rw [hb']
          simp [hmem]
      rw [hfe]
    rw [hpaths]

/-- C5 amended witness: the two-entry state above satisfies the `Nodup`
hypothesis; applying the theorem yields the concrete sweep outcome. -/
theorem ttl_sweep_exact_witness :
    (([("a-b:c", (⟨"a-b", "c", "/c/x.phar", "u", none, 0, 0, 7, none, false⟩ : CacheEntry)),
       ("a:b-c", ⟨"a", "b-c", "/c/x.phar", "u", none, 0, 100, 7, none, false⟩)].map
        Prod.fst).Nodup) ∧
    ((cleanup_old_entries 100 50
        ⟨[("a-b:c", ⟨"a-b", "c", "/c/x.phar", "u", none, 0, 0, 7, none, false⟩),
          ("a:b-c", ⟨"a", "b-c", "/c/x.phar", "u", none, 0, 100, 7, none, false⟩)], []⟩
        ["/c/x.phar"]).1.entries
      = [("a-b:c", ⟨"a-b", "c", "/c/x.phar", "u", none, 0, 0, 7, none, false⟩),
         ("a:b-c", ⟨"a", "b-c", "/c/x.phar", "u", none, 0, 100, 7, none, false⟩)].filter
          (fun p => !expiredB 100 50 p) ∧
     (cleanup_old_entries 100 50
        ⟨[("a-b:c", ⟨"a-b", "c", "/c/x.phar", "u", none, 0, 0, 7, none, false⟩),
          ("a:b-c", ⟨"a", "b-c", "/c/x.phar", "u", none, 0, 100, 7, none, false⟩)], []⟩
        ["/c/x.phar"]).1.disk
      = [("a-b:c", ⟨"a-b", "c", "/c/x.phar", "u", none, 0, 0, 7, none, false⟩),
         ("a:b-c", ⟨"a", "b-c", "/c/x.phar", "u", none, 0, 100, 7, none, false⟩)].filter
          (fun p => !expiredB 100 50 p) ∧
     (cleanup_old_entries 100 50
        ⟨[("a-b:c", ⟨"a-b", "c", "/c/x.phar", "u", none, 0, 0, 7, none, false⟩),
          ("a:b-c", ⟨"a", "b-c", "/c/x.phar", "u", none, 0, 100, 7, none, false⟩)], []⟩
        ["/c/x.phar"]).2
      = ["/c/x.phar"].filter (fun q => decide (q ∉
          ([("a-b:c", (⟨"a-b", "c", "/c/x.phar", "u", none, 0, 0, 7, none, false⟩ : CacheEntry)),
            ("a:b-c", ⟨"a", "b-c", "/c/x.phar", "u", none, 0, 100, 7, none, false⟩)].filter
              (expiredB 100 50)).map (fun p => p.2.file_path)))) :=
  ⟨by decide,
   ttl_sweep_exact 100 50
     ⟨[("a-b:c", ⟨"a-b", "c", "/c/x.phar", "u", none, 0, 0, 7, none, false⟩),
       ("a:b-c", ⟨"a", "b-c", "/c/x.phar", "u", none, 0, 100, 7, none, false⟩)], []⟩
     ["/c/x.phar"] (by decide)⟩

end Phpx
